import Mathlib

/-!
# Verification of the Gemini-OCR pipeline (src/main.py, src/ocr_utils.py)

A shallow embedding of the two Python modules of the repository.

Conventions of the embedding:

* Python exceptions are modelled by `Except PyErr`.  `main.py` distinguishes
  exactly two kinds of exception (`except ValueError` for the content-rejection
  path of `response.text`, and `except Exception` for everything else), so
  `PyErr` has two constructors.
* The remote Gemini service (`model.generate_content`), the PDF rasterizer
  (`pdf2image.convert_from_path`), the image decoder (`PIL.Image.open` applied
  to the bytes of a file) and the input-directory listing (`os.listdir`) are
  external collaborators; they become fields of an `Env` record of pure
  functions.  Determinism of the collaborators for a fixed input is the
  deterministic-service assumption made by the spec's testable properties.
* The relevant filesystem state is an explicit `World`: the temporary image
  directory of the document currently being processed, the output text files,
  and a log of the remote calls made so far (used to state "no further batch
  is processed" and "zero remote calls").
* Page-image files are written as `page_1.jpg`, `page_2.jpg`, … into the fresh
  temporary directory, one per page, in page order; the file names are in
  one-to-one correspondence with the page index, so the embedding uses the
  0-based page index as the image path and stores the directory as the ordered
  list of saved page bytes.
-/

/-- The two kinds of Python exception that the code distinguishes:
`valueError` is `ValueError` (raised by `response.text` when the service
returns no usable parts, i.e. content rejection); `otherError` is any other
exception (transport/service errors, `PIL` decode errors, rasterizer
failures, …). `main.py` catches the two separately. -/
inductive PyErr where
  | valueError
  | otherError
deriving DecidableEq, Repr

/-- One invocation of `model.generate_content`: the prompt and the list of
(decoded) images sent with it (empty for the text-only harmonization call). -/
structure RemoteCall where
  prompt : String
  images : List String
deriving DecidableEq, Repr

/-- The filesystem/interaction state threaded through the embedded code.
`temp` is the temporary image directory of the document currently being
processed (`none` = the directory does not exist; `some l` = it exists and
holds the page files `page_1.jpg`, …, whose bytes are listed in page order).
`files` are the output text files on disk as `(path, content)` pairs.
`calls` is the log of remote-service invocations, oldest first. -/
structure World where
  temp : Option (List String)
  files : List (String × String)
  calls : List RemoteCall
deriving DecidableEq, Repr

/-- The external collaborators, as pure functions (deterministic for a fixed
input, matching the spec's testable-properties assumption):

* `convert_from_path p` — `pdf2image.convert_from_path` followed by saving
  each page as a JPEG: the list of saved page-image bytes, or the exception it
  raises;
* `decode b` — `PIL.Image.open` on file bytes `b`: the in-memory image, or
  the exception raised for undecodable data;
* `gen prompt imgs` — `model.generate_content([prompt, *imgs]).text`: the
  response text, `.error .valueError` when `response.text` raises (content
  rejection), `.error .otherError` for transport/service failures;
* `listdir` — the entries of the `pdf_docs` input directory. -/
structure Env where
  convert_from_path : String → Except PyErr (List String)
  decode : String → Except PyErr String
  gen : String → List String → Except PyErr String
  listdir : List String

/-! ## Batcher (src/ocr_utils.py, `batch_images`)

```python
def batch_images(image_paths, batch_size=25):
    for i in range(0, len(image_paths), batch_size):
        yield image_paths[i:i + batch_size]
```

The loop yields the slices `image_paths[0:b]`, `image_paths[b:2b]`, …, i.e.
it repeatedly takes the first `b` elements and recurses on the rest.  The
recursion is written with a fuel argument (the list length bounds the number
of chunks for `b > 0`) so that it is structural and the kernel can evaluate
it.  Python's `range` raises `ValueError` for a zero step, so `batch_size = 0`
is outside the modelled domain; the definition returns `[]` there. -/

/-- Auxiliary chunking recursion: `fuel ≥ l.length` and `b > 0` guarantee the
`0, _ :: _` case is never reached. -/
def chunks_go (b : Nat) : Nat → List α → List (List α)
  | _, [] => []
  | 0, _ :: _ => []
  | fuel + 1, x :: xs => (x :: xs).take b :: chunks_go b fuel ((x :: xs).drop b)

/-- `batch_images` from src/ocr_utils.py: successive `batch_size`-sized
contiguous slices of `image_paths`. -/
def batch_images (image_paths : List α) (batch_size : Nat) : List (List α) :=
  if batch_size = 0 then [] else chunks_go batch_size image_paths.length image_paths

theorem chunks_go_nil (b fuel : Nat) : chunks_go b fuel ([] : List α) = [] := by
  cases fuel <;> rfl

theorem chunks_go_fuel_irrel (b : Nat) (hb : b ≠ 0) :
    ∀ (f₁ f₂ : Nat) (l : List α), l.length ≤ f₁ → l.length ≤ f₂ →
      chunks_go b f₁ l = chunks_go b f₂ l := by
  intro f₁
  induction f₁ with
  | zero =>
    intro f₂ l h₁ _
    have : l = [] := List.eq_nil_of_length_eq_zero (Nat.le_zero.mp h₁)
    subst this
    rw [chunks_go_nil, chunks_go_nil]
  | succ n ih =>
    intro f₂ l h₁ h₂
    cases l with
    | nil => rw [chunks_go_nil, chunks_go_nil]
    | cons x xs =>
      cases f₂ with
      | zero => simp at h₂
      | succ m =>
        rw [chunks_go, chunks_go]
        have hdrop : ((x :: xs).drop b).length = (x :: xs).length - b :=
          List.length_drop ..
        have hlen : (x :: xs).length = xs.length + 1 := List.length_cons ..
        congr 1
        exact ih m _ (by omega) (by omega)

/-- Unfolding lemma: for `b > 0` and a nonempty list, `batch_images` is the
head chunk followed by the chunks of the rest. -/
theorem batch_images_cons (b : Nat) (hb : b ≠ 0) (l : List α) (hl : l ≠ []) :
    batch_images l b = l.take b :: batch_images (l.drop b) b := by
  cases l with
  | nil => exact absurd rfl hl
  | cons x xs =>
    unfold batch_images
    rw [if_neg hb, if_neg hb]
    rw [List.length_cons, chunks_go]
    congr 1
    apply chunks_go_fuel_irrel b hb
    · have : ((x :: xs).drop b).length = (x :: xs).length - b :=
        List.length_drop ..
      simp only [List.length_cons] at this ⊢
      omega
    · exact Nat.le_refl _

theorem batch_images_nil (b : Nat) : batch_images ([] : List α) b = [] := by
  unfold batch_images
  cases Nat.decEq b 0 <;> simp [chunks_go_nil, *]

theorem batch_images_ne_nil (b : Nat) (hb : b ≠ 0) (l : List α) (hl : l ≠ []) :
    batch_images l b ≠ [] := by
  rw [batch_images_cons b hb l hl]
  exact List.cons_ne_nil _ _

theorem batch_images_flatten (b : Nat) (hb : b ≠ 0) (l : List α) :
    (batch_images l b).flatten = l := by
  generalize hn : l.length = n
  induction n using Nat.strong_induction_on generalizing l with
  | _ n ih =>
    cases l with
    | nil => simp [batch_images_nil]
    | cons x xs =>
      subst hn
      rw [batch_images_cons b hb _ (List.cons_ne_nil x xs), List.flatten_cons]
      have hd : ((x :: xs).drop b).length = (x :: xs).length - b :=
        List.length_drop ..
      have hlen : (x :: xs).length = xs.length + 1 := List.length_cons ..
      rw [ih ((x :: xs).drop b).length (by omega) _ rfl]
      exact List.take_append_drop ..

theorem batch_images_length_aux (b : Nat) (hb : b ≠ 0) (l : List α) (hl : l ≠ []) :
    (batch_images l b).length = (l.length - 1) / b + 1 := by
  generalize hn : l.length = n
  induction n using Nat.strong_induction_on generalizing l with
  | _ n ih =>
    subst hn
    rw [batch_images_cons b hb l hl, List.length_cons]
    have hd : (l.drop b).length = l.length - b := List.length_drop ..
    have hpos : 0 < l.length := List.length_pos.mpr hl
    by_cases hble : l.length ≤ b
    · have hnil : l.drop b = [] := List.eq_nil_of_length_eq_zero (by omega)
      rw [hnil, batch_images_nil]
      have h0 : (l.length - 1) / b = 0 := Nat.div_eq_of_lt (by omega)
      simp only [List.length_nil]
      omega
    · have hne : l.drop b ≠ [] := by
        intro hcon
        have := congrArg List.length hcon
        simp only [List.length_nil] at this
        omega
      have hih := ih (l.drop b).length (by omega) _ hne rfl
      rw [hih, hd]
      have h2 : (l.length - 1) / b = (l.length - b - 1) / b + 1 := by
        rw [Nat.div_eq_sub_div (Nat.pos_of_ne_zero hb) (by omega : b ≤ l.length - 1)]
        have h3 : l.length - 1 - b = l.length - b - 1 := by omega
        rw [h3]
      omega

theorem batch_images_dropLast_length (b : Nat) (hb : b ≠ 0) (l : List α) :
    ∀ c ∈ (batch_images l b).dropLast, c.length = b := by
  generalize hn : l.length = n
  induction n using Nat.strong_induction_on generalizing l with
  | _ n ih =>
    cases l with
    | nil => simp [batch_images_nil]
    | cons x xs =>
      subst hn
      rw [batch_images_cons b hb _ (List.cons_ne_nil x xs)]
      have hd : ((x :: xs).drop b).length = (x :: xs).length - b :=
        List.length_drop ..
      have hlen : (x :: xs).length = xs.length + 1 := List.length_cons ..
      by_cases hble : (x :: xs).length ≤ b
      · have hnil : (x :: xs).drop b = [] := List.eq_nil_of_length_eq_zero (by omega)
        rw [hnil, batch_images_nil]
        intro c hc
        simp at hc
      · have hne : (x :: xs).drop b ≠ [] := by
          intro hcon
          have := congrArg List.length hcon
          simp only [List.length_nil] at this
          omega
        obtain ⟨r, rs, hr⟩ := List.exists_cons_of_ne_nil
          (batch_images_ne_nil b hb _ hne)
        rw [hr, List.dropLast_cons₂]
        intro c hc
        rcases List.mem_cons.mp hc with hc | hc
        · subst hc
          rw [List.length_take]
          omega
        · have hih := ih ((x :: xs).drop b).length (by omega) _ rfl
          rw [hr] at hih
          exact hih c hc

theorem batch_images_getLast_length (b : Nat) (hb : b ≠ 0) (l : List α) :
    ∀ c, (batch_images l b).getLast? = some c →
      c.length = if l.length % b = 0 then b else l.length % b := by
  generalize hn : l.length = n
  induction n using Nat.strong_induction_on generalizing l with
  | _ n ih =>
    cases l with
    | nil => simp [batch_images_nil]
    | cons x xs =>
      subst hn
      rw [batch_images_cons b hb _ (List.cons_ne_nil x xs)]
      have hd : ((x :: xs).drop b).length = (x :: xs).length - b :=
        List.length_drop ..
      have hlen : (x :: xs).length = xs.length + 1 := List.length_cons ..
      by_cases hble : (x :: xs).length ≤ b
      · have hnil : (x :: xs).drop b = [] := List.eq_nil_of_length_eq_zero (by omega)
        rw [hnil, batch_images_nil]
        intro c hc
        simp only [List.getLast?_singleton, Option.some.injEq] at hc
        subst hc
        rcases Nat.lt_or_ge (x :: xs).length b with hlt | hge
        · have hmod : (x :: xs).length % b = (x :: xs).length := Nat.mod_eq_of_lt hlt
          rw [hmod, if_neg (by omega), List.length_take]
          omega
        · have hbeq : (x :: xs).length = b := by omega
          rw [List.length_take, hbeq, Nat.mod_self, if_pos rfl]
          omega
      · have hne : (x :: xs).drop b ≠ [] := by
          intro hcon
          have := congrArg List.length hcon
          simp only [List.length_nil] at this
          omega
        obtain ⟨r, rs, hr⟩ := List.exists_cons_of_ne_nil
          (batch_images_ne_nil b hb _ hne)
        rw [hr, List.getLast?_cons_cons]
        intro c hc
        have hih := ih ((x :: xs).drop b).length (by omega) _ rfl c
          (by rw [hr]; exact hc)
        rw [hd] at hih
        rw [Nat.mod_eq_sub_mod (show (x :: xs).length ≥ b by omega)]
        exact hih

/-- C1: for every list of `N ≥ 0` items and every batch size `B > 0`,
`batch_images` returns `⌈N/B⌉` (i.e. `(N + B - 1) / B`) contiguous slices,
each of length `B` except possibly the last, whose length is `N mod B`
(or `B` when `B` divides `N` and `N > 0`); concatenating the slices in
order reproduces the original list exactly, so there is no reordering,
no drop and no duplicate. -/
theorem batch_images_partition (l : List α) (b : Nat) (hb : 0 < b) :
    (batch_images l b).length = (l.length + b - 1) / b ∧
    (batch_images l b).flatten = l ∧
    (∀ c ∈ (batch_images l b).dropLast, c.length = b) ∧
    (∀ c, (batch_images l b).getLast? = some c →
      c.length = if l.length % b = 0 then b else l.length % b) := by
  have hb' : b ≠ 0 := Nat.pos_iff_ne_zero.mp hb
  refine ⟨?_, batch_images_flatten b hb' l,
    batch_images_dropLast_length b hb' l, batch_images_getLast_length b hb' l⟩
  by_cases hl : l = []
  · subst hl
    rw [batch_images_nil]
    simp only [List.length_nil]
    rw [Nat.div_eq_of_lt (by omega)]
  · rw [batch_images_length_aux b hb' l hl]
    have hpos : 0 < l.length := List.length_pos.mpr hl
    have h1 : l.length + b - 1 = (l.length - 1) + b := by omega
    rw [h1, Nat.add_div_right _ hb]

/-- Witness for C1 at a concrete input: five items in batches of two. -/
theorem batch_images_partition_witness :
    (0 : Nat) < 2 ∧
    ((batch_images [0, 1, 2, 3, 4] 2).length = (([0, 1, 2, 3, 4] : List Nat).length + 2 - 1) / 2 ∧
     (batch_images [0, 1, 2, 3, 4] 2).flatten = [0, 1, 2, 3, 4] ∧
     (∀ c ∈ (batch_images [0, 1, 2, 3, 4] 2).dropLast, c.length = 2) ∧
     (∀ c, (batch_images [0, 1, 2, 3, 4] 2).getLast? = some c →
       c.length = if ([0, 1, 2, 3, 4] : List Nat).length % 2 = 0 then 2
         else ([0, 1, 2, 3, 4] : List Nat).length % 2)) :=
  ⟨by decide, batch_images_partition [0, 1, 2, 3, 4] 2 (by decide)⟩

/-! ## OCR Client (src/ocr_utils.py, `ocr_with_gemini`, `ocr_complex_document`)

The long prompt literals of the source are abridged below (no claim depends
on their wording); what is kept faithfully is their structure: which caller
data is interpolated into them and which is not. -/

/-- The fixed transcription prompt of `ocr_with_gemini` (src/ocr_utils.py
lines 65-88) with the caller instruction interpolated at the top (abridged). -/
def ocr_prompt (instruction : String) : String :=
  "\n    " ++ instruction ++
    "\n\n    You are an extremely meticulous and literal OCR engine. Transcribe exactly what you see: no summarization, no additions, no deletions; preserve structure; tables as Markdown; multi-column layouts left-to-right then top-to-bottom; include headers, footers and page numbers; no commentary.\n    "

/-- The instruction of `ocr_complex_document` (src/ocr_utils.py lines
104-108), abridged. -/
def complex_instruction : String :=
  "\n    **Task: High-Fidelity Text Extraction for Complex Layouts (RAG Optimization)**\n\n    Focus on capturing all textual information while faithfully representing the structure of the original document for optimal RAG chunking.\n    "

/-- The harmonization prompt of `harmonize_document` (src/ocr_utils.py lines
210-226), abridged.  In the source this is an f-string with **no
placeholder**, so the extracted text is not interpolated into it: the prompt
is a constant and is the only payload of the harmonization call. -/
def harmonize_prompt : String :=
  "\n    **Task: Document Harmonization for RAG System - Absolute Fidelity Required**\n\n    The following text was extracted from a single large document in multiple batches separated by markers. Merge the content into a single coherent document: remove ALL batch separation markers, fix formatting breaks, stitch broken tables, preserve all original formatting, do not summarize and do not add content.\n    "

/-- `PIL.Image.open(path)` inside the temporary image directory; the path is
the 0-based page index (standing for the file `page_(i+1).jpg`).  Opening
raises (`FileNotFoundError`) when the directory or the file is absent, and
decoding raises (`PIL.UnidentifiedImageError`) for undecodable data; both are
plain non-`ValueError` exceptions for `main.py`. -/
def open_image (env : Env) (temp : Option (List String)) (path : Nat) :
    Except PyErr String :=
  match temp with
  | none => .error .otherError
  | some contents =>
    match contents.get? path with
    | none => .error .otherError
    | some bytes => env.decode bytes

/-- `images = [Image.open(path) for path in image_paths]`: decode every image
of the batch; a Python list comprehension propagates the first exception, so
the whole batch fails on the first bad image. -/
def decode_batch (env : Env) (temp : Option (List String))
    (image_paths : List Nat) : Except PyErr (List String) :=
  image_paths.mapM (open_image env temp)

/-- `ocr_with_gemini` from src/ocr_utils.py: decode the batch images, build
the prompt, send `[prompt, *images]` to the model and return `response.text`.
The world logs the remote call; when decoding raises, the service is never
invoked. -/
def ocr_with_gemini (env : Env) (image_paths : List Nat) (instruction : String)
    (w : World) : Except PyErr String × World :=
  match decode_batch env w.temp image_paths with
  | .error e => (.error e, w)
  | .ok images =>
    (env.gen (ocr_prompt instruction) images,
     { w with calls := w.calls ++ [⟨ocr_prompt instruction, images⟩] })

/-- `ocr_complex_document` from src/ocr_utils.py: `ocr_with_gemini` with the
complex-layout instruction. -/
def ocr_complex_document (env : Env) (image_paths : List Nat) (w : World) :
    Except PyErr String × World :=
  ocr_with_gemini env image_paths complex_instruction w

/-- The result value of `ocr_with_gemini`: it depends only on the
environment, the directory contents and the batch, not on the rest of the
world. -/
def pure_ocr (env : Env) (temp : Option (List String)) (image_paths : List Nat)
    (instruction : String) : Except PyErr String :=
  match decode_batch env temp image_paths with
  | .error e => .error e
  | .ok images => env.gen (ocr_prompt instruction) images

/-! ## Document Assembler (src/ocr_utils.py, `convert_pdf_to_images`,
`process_large_pdf`, `harmonize_document`) -/

/-- The literal batch-boundary marker with 1-based ordinal `n`
(`"\n\n--- END OF BATCH {n} ---\n\n"` in the source f-string). -/
def batch_marker (n : Nat) : String :=
  "\n\n--- END OF BATCH " ++ toString n ++ " ---\n\n"

/-- `convert_pdf_to_images` from src/ocr_utils.py: create the output folder
if absent (`os.makedirs`), rasterize the PDF (`convert_from_path`, which may
raise), save page `i` (0-based) as `page_(i+1).jpg` and return the image
paths in page order.  The embedding stores the directory as the ordered list
of saved page bytes and returns the page indices as paths; in the pipeline
the directory is always freshly created by `tempfile.TemporaryDirectory`, so
the saved pages are its whole contents. -/
def convert_pdf_to_images (env : Env) (pdf_path : String) (w : World) :
    Except PyErr (List Nat) × World :=
  let fs0 := w.temp.getD []
  match env.convert_from_path pdf_path with
  | .error e => (.error e, { w with temp := some fs0 })
  | .ok pages => (.ok (List.range pages.length), { w with temp := some pages })

/-- The batch loop of `process_large_pdf` (src/ocr_utils.py lines 182-195):
`i` is the 0-based `enumerate` index and `acc` the accumulated
`full_extracted_text`.  The `try`/`except` around the OCR call prints
diagnostics and then re-raises, so an exception aborts the loop (no later
batch is processed) and propagates. -/
def process_batches (env : Env) :
    List (List Nat) → Nat → String → World → Except PyErr String × World
  | [], _, acc, w => (.ok acc, w)
  | batch :: rest, i, acc, w =>
    match ocr_complex_document env batch w with
    | (.error e, w1) => (.error e, w1)
    | (.ok batch_text, w1) =>
      process_batches env rest (i + 1)
        (acc ++ batch_marker (i + 1) ++ batch_text) w1

/-- `process_large_pdf` from src/ocr_utils.py: rasterize the PDF, batch the
page images with `batch_images(…, 25)`, OCR each batch in ascending order
appending `batch_marker (i+1) ++ batch_text`, then remove the temporary image
folder (`shutil.rmtree`) and return the accumulated text.  On any exception
the `raise` skips the cleanup step and propagates to `main`. -/
def process_large_pdf (env : Env) (pdf_path : String) (w : World) :
    Except PyErr String × World :=
  match convert_pdf_to_images env pdf_path w with
  | (.error e, w1) => (.error e, w1)
  | (.ok image_paths, w1) =>
    let image_batches := batch_images image_paths 25
    match process_batches env image_batches 0 "" w1 with
    | (.error e, w2) => (.error e, w2)
    | (.ok full_extracted_text, w2) =>
      (.ok full_extracted_text, { w2 with temp := none })

/-- `harmonize_document` from src/ocr_utils.py: send the harmonization prompt
to the model and return `response.text`.  The `extracted_text` argument is
accepted but — exactly as in the source, whose f-string contains no
placeholder — never placed in the payload. -/
def harmonize_document (env : Env) (_extracted_text : String) (w : World) :
    Except PyErr String × World :=
  (env.gen harmonize_prompt [],
   { w with calls := w.calls ++ [⟨harmonize_prompt, []⟩] })

/-! ## Pipeline Driver (src/main.py, `main`) -/

/-- Per-document outcome of the driver loop in `main` (src/main.py):
`skipped` = output file already present; `succeeded` = output written;
`failedValue` = the `except ValueError` path (content restriction);
`failedOther` = the `except Exception` path. -/
inductive DocStatus where
  | skipped
  | succeeded
  | failedValue
  | failedOther
deriving DecidableEq, Repr

/-- `os.path.splitext(name)[0]` for a bare file name: strip the suffix from
the last dot on, unless every character before that dot is itself a dot
(leading dots of a hidden file do not start an extension). -/
def splitext_base (name : String) : String :=
  let cs := name.data
  match ((List.range cs.length).filter (fun i => cs.get? i == some '.')).getLast? with
  | none => name
  | some i => if (cs.take i).any (fun c => c != '.') then ⟨cs.take i⟩ else name

/-- The target text path of a document:
`os.path.join(final_output_folder, base + ".txt")` with `base` the PDF name
without its extension (src/main.py lines 31-32). -/
def final_output_path (pdf_name : String) : String :=
  "output/" ++ splitext_base pdf_name ++ ".txt"

/-- ASCII fragment of Python `str.lower` (all that the `.pdf` suffix test of
`main` exercises). -/
def char_lower (c : Char) : Char :=
  if 'A' ≤ c ∧ c ≤ 'Z' then Char.ofNat (c.toNat + 32) else c

/-- `f.lower()` on a file name (ASCII fragment). -/
def lower_str (s : String) : String :=
  ⟨s.data.map char_lower⟩

/-- `s.endswith(suffix)`. -/
def str_ends_with (s suffix : String) : Bool :=
  suffix.data.isSuffixOf s.data

/-- The candidate documents of the run: entries of the input directory whose
lowercased name ends in `.pdf` (src/main.py line 17). -/
def pdf_files (env : Env) : List String :=
  env.listdir.filter (fun f => str_ends_with (lower_str f) ".pdf")

/-- `os.path.exists(final_output_path)` over the tracked output files
(src/main.py line 35). -/
def output_exists (w : World) (pdf_name : String) : Bool :=
  w.files.any (fun kv => kv.1 == final_output_path pdf_name)

/-- Which driver status a per-document outcome produces: a `ValueError` is
caught by the first handler, any other exception by the second
(src/main.py lines 58-66). -/
def status_of : Except PyErr String → DocStatus
  | .ok _ => .succeeded
  | .error .valueError => .failedValue
  | .error .otherError => .failedOther

/-- One iteration of the driver loop of `main` (src/main.py lines 25-66) for
the document `pdf_name`: skip when the output file already exists; otherwise
create a fresh temporary image directory (`tempfile.TemporaryDirectory`), run
`process_large_pdf`, then `harmonize_document`, write the harmonized text to
the target path, and let the context manager remove the temporary directory.
On the exception paths the context manager removes the directory during
unwinding, before the `except` handler runs; on the success path
`process_large_pdf` has already removed it, and the context manager's cleanup
of the now-missing directory is a no-op (CPython ignores the
`FileNotFoundError`). -/
def process_one (env : Env) (pdf_name : String) (w : World) : DocStatus × World :=
  if output_exists w pdf_name then
    (.skipped, w)
  else
    let w1 : World := { w with temp := some [] }
    match process_large_pdf env ("pdf_docs/" ++ pdf_name) w1 with
    | (.error e, w2) => (status_of (.error e), { w2 with temp := none })
    | (.ok raw_extracted_text, w2) =>
      match harmonize_document env raw_extracted_text w2 with
      | (.error e, w3) => (status_of (.error e), { w3 with temp := none })
      | (.ok harmonized_text, w3) =>
        (.succeeded,
         { w3 with
             files := w3.files ++ [(final_output_path pdf_name, harmonized_text)],
             temp := none })

/-- The driver loop over all candidate documents, returning each status in
order together with the final world. -/
def main_loop (env : Env) : List String → World → List DocStatus × World
  | [], w => ([], w)
  | pdf_name :: rest, w =>
    let (st, w1) := process_one env pdf_name w
    let (sts, w2) := main_loop env rest w1
    (st :: sts, w2)

namespace Pipeline

/-- `main` from src/main.py: list the `.pdf` entries of the input directory
(returning immediately when there are none) and process them in order. -/
def main (env : Env) (w : World) : List DocStatus × World :=
  let pdfs := pdf_files env
  if pdfs.isEmpty then ([], w) else main_loop env pdfs w

end Pipeline

/-! ## Pure characterizations

The stateful functions above change the world in a rigid way: the results of
the remote calls depend only on the environment and the temporary-directory
contents, never on the output files or the call log.  The following pure
functions compute each component of the outcome, and the `…_eq` lemmas prove
the stateful code equal to them. -/

/-- The value computed by the batch loop, as a pure function of the
environment and the directory contents. -/
def pure_batches (env : Env) (temp : Option (List String)) :
    List (List Nat) → Nat → String → Except PyErr String
  | [], _, acc => .ok acc
  | batch :: rest, i, acc =>
    match pure_ocr env temp batch complex_instruction with
    | .error e => .error e
    | .ok t => pure_batches env temp rest (i + 1) (acc ++ batch_marker (i + 1) ++ t)

/-- The remote calls the batch loop performs: one call per batch up to and
including the first failing one; a batch whose images fail to decode makes no
call at all. -/
def batch_calls (env : Env) (temp : Option (List String)) :
    List (List Nat) → List RemoteCall
  | [] => []
  | batch :: rest =>
    match decode_batch env temp batch with
    | .error _ => []
    | .ok images =>
      ⟨ocr_prompt complex_instruction, images⟩ ::
        match env.gen (ocr_prompt complex_instruction) images with
        | .error _ => []
        | .ok _ => batch_calls env temp rest

theorem process_batches_eq (env : Env) (bs : List (List Nat)) :
    ∀ (i : Nat) (acc : String) (w : World),
      process_batches env bs i acc w =
        (pure_batches env w.temp bs i acc,
         { w with calls := w.calls ++ batch_calls env w.temp bs }) := by
  induction bs with
  | nil =>
    intro i acc w
    simp [process_batches, pure_batches, batch_calls]
  | cons batch rest ih =>
    intro i acc w
    rw [process_batches]
    unfold ocr_complex_document ocr_with_gemini
    rw [pure_batches, batch_calls]
    unfold pure_ocr
    cases hdec : decode_batch env w.temp batch with
    | error e => simp
    | ok images =>
      cases hgen : env.gen (ocr_prompt complex_instruction) images with
      | error e => simp [hgen]
      | ok t => simp [hgen, ih, List.append_assoc]

/-- The pure result of `process_large_pdf`. -/
def assemble_result (env : Env) (pdf_path : String) : Except PyErr String :=
  match env.convert_from_path pdf_path with
  | .error e => .error e
  | .ok pages =>
    pure_batches env (some pages) (batch_images (List.range pages.length) 25) 0 ""

/-- The remote calls `process_large_pdf` performs. -/
def assemble_calls (env : Env) (pdf_path : String) : List RemoteCall :=
  match env.convert_from_path pdf_path with
  | .error _ => []
  | .ok pages =>
    batch_calls env (some pages) (batch_images (List.range pages.length) 25)

/-- The temporary-directory state `process_large_pdf` leaves behind: on
success the folder has been removed before returning; on a failure the page
images are still on disk (the `raise` skips the cleanup step — in the
pipeline the enclosing `tempfile.TemporaryDirectory` of `main` removes them
during unwinding). -/
def assemble_temp (env : Env) (pdf_path : String) (t0 : Option (List String)) :
    Option (List String) :=
  match env.convert_from_path pdf_path with
  | .error _ => some (t0.getD [])
  | .ok pages =>
    match pure_batches env (some pages) (batch_images (List.range pages.length) 25) 0 "" with
    | .error _ => some pages
    | .ok _ => none

theorem process_large_pdf_eq (env : Env) (pdf_path : String) (w : World) :
    process_large_pdf env pdf_path w =
      (assemble_result env pdf_path,
       { w with temp := assemble_temp env pdf_path w.temp,
                calls := w.calls ++ assemble_calls env pdf_path }) := by
  unfold process_large_pdf convert_pdf_to_images assemble_result assemble_calls
    assemble_temp
  cases hconv : env.convert_from_path pdf_path with
  | error e => simp
  | ok pages =>
    simp only
    rw [process_batches_eq]
    simp only
    cases hpb : pure_batches env (some pages)
        (batch_images (List.range pages.length) 25) 0 "" with
    | error e => simp
    | ok text => simp

/-- The pure result of `harmonize_document`: the harmonization prompt is a
constant, so the result does not depend on the raw text. -/
def harmonize_result (env : Env) : Except PyErr String :=
  env.gen harmonize_prompt []

/-- The pure final-text outcome of one (non-skipped) document: assemble,
then — only on success — harmonize. -/
def doc_result (env : Env) (pdf_name : String) : Except PyErr String :=
  match assemble_result env ("pdf_docs/" ++ pdf_name) with
  | .error e => .error e
  | .ok _ => harmonize_result env

/-- The remote calls one processed (non-skipped) document triggers. -/
def doc_calls (env : Env) (pdf_name : String) : List RemoteCall :=
  assemble_calls env ("pdf_docs/" ++ pdf_name) ++
    match assemble_result env ("pdf_docs/" ++ pdf_name) with
    | .error _ => []
    | .ok _ => [⟨harmonize_prompt, []⟩]

/-- The output files one document appends: exactly one file (the harmonized
text at the target path) on full success, none otherwise. -/
def doc_output (env : Env) (pdf_name : String) : List (String × String) :=
  match doc_result env pdf_name with
  | .error _ => []
  | .ok t => [(final_output_path pdf_name, t)]

theorem process_one_eq (env : Env) (pdf_name : String) (w : World) :
    process_one env pdf_name w =
      if output_exists w pdf_name then (.skipped, w)
      else
        (status_of (doc_result env pdf_name),
         { temp := none,
           files := w.files ++ doc_output env pdf_name,
           calls := w.calls ++ doc_calls env pdf_name }) := by
  unfold process_one
  by_cases h : output_exists w pdf_name
  · simp [h]
  · simp only [h, if_neg, Bool.false_eq_true, reduceIte]
    rw [process_large_pdf_eq]
    cases har : assemble_result env ("pdf_docs/" ++ pdf_name) with
    | error e =>
      simp [doc_result, doc_calls, doc_output, har, harmonize_document,
        harmonize_result, status_of]
    | ok raw =>
      cases hg : env.gen harmonize_prompt [] with
      | error e =>
        simp [doc_result, doc_calls, doc_output, har, hg, harmonize_document,
          harmonize_result, status_of, List.append_assoc]
      | ok harmonized =>
        simp [doc_result, doc_calls, doc_output, har, hg, harmonize_document,
          harmonize_result, status_of, List.append_assoc]

deriving instance DecidableEq for Except

/-! ## Claim C2: assembled text -/

/-- The spec-side formula of C2: the concatenation
`Σ batch_marker i ++ text_i` for `i = i₀+1, i₀+2, …` in ascending order. -/
def spec_assembled_from (i : Nat) : List String → String
  | [] => ""
  | t :: ts => batch_marker (i + 1) ++ t ++ spec_assembled_from (i + 1) ts

/-- The spec-side formula of C2 for a whole document: markers carry the
1-based batch ordinal and each precedes the text of its batch. -/
def spec_assembled_text (texts : List String) : String :=
  spec_assembled_from 0 texts

theorem pure_batches_all_ok (env : Env) (temp : Option (List String))
    (bs : List (List Nat)) (texts : List String)
    (hocr : List.Forall₂
      (fun b t => pure_ocr env temp b complex_instruction = .ok t) bs texts) :
    ∀ (i : Nat) (acc : String),
      pure_batches env temp bs i acc = .ok (acc ++ spec_assembled_from i texts) := by
  induction hocr with
  | nil =>
    intro i acc
    simp [pure_batches, spec_assembled_from]
  | @cons b t bs' ts' hbt _ ih =>
    intro i acc
    simp only [pure_batches, hbt]
    rw [ih (i + 1) (acc ++ batch_marker (i + 1) ++ t)]
    rw [spec_assembled_from]
    simp [String.append_assoc]

/-- C2: for a document whose `K` batches each yield OCR text
`text_1, …, text_K`, `process_large_pdf` returns exactly the concatenation,
in ascending batch order, of `"\n\n--- END OF BATCH i ---\n\n"` followed by
`text_i` for `i = 1..K` — the marker carries the 1-based batch ordinal and
precedes the text of its batch — with no batch omitted or reordered. -/
theorem process_large_pdf_assembles (env : Env) (pdf_path : String) (w : World)
    (pages : List String) (texts : List String)
    (hconv : env.convert_from_path pdf_path = .ok pages)
    (hocr : List.Forall₂
      (fun b t => pure_ocr env (some pages) b complex_instruction = .ok t)
      (batch_images (List.range pages.length) 25) texts) :
    (process_large_pdf env pdf_path w).1 = .ok (spec_assembled_text texts) := by
  rw [process_large_pdf_eq]
  simp only
  unfold assemble_result
  rw [hconv]
  simp only
  rw [pure_batches_all_ok env (some pages) _ texts hocr 0 ""]
  rw [spec_assembled_text, String.empty_append]

/-- Environment for the C2 witness: a 26-page PDF (two batches of 25 and 1),
every page decoding to its own bytes, the service returning the number of
images it was sent. -/
def env_c2 : Env where
  convert_from_path := fun _ => .ok (List.replicate 26 "p")
  decode := fun bytes => .ok bytes
  gen := fun _ images => .ok (toString images.length)
  listdir := ["doc.pdf"]

/-- The empty initial world. -/
def w0 : World := { temp := none, files := [], calls := [] }

/-- Witness for C2: with 26 pages the two batches yield texts "25" and "1",
and the assembled result is marker 1, "25", marker 2, "1". -/
theorem process_large_pdf_assembles_witness :
    env_c2.convert_from_path "pdf_docs/doc.pdf" = .ok (List.replicate 26 "p") ∧
    (process_large_pdf env_c2 "pdf_docs/doc.pdf" w0).1 =
      .ok (spec_assembled_text ["25", "1"]) :=
  ⟨by decide, process_large_pdf_assembles env_c2 "pdf_docs/doc.pdf" w0
    (List.replicate 26 "p") ["25", "1"] (by decide) (by decide)⟩

/-! ## Claim C3: abort on a failing batch -/

/-- The remote calls a single batch performs: one when its images decode,
none when decoding already raises. -/
def batch_call (env : Env) (temp : Option (List String)) (batch : List Nat) :
    List RemoteCall :=
  match decode_batch env temp batch with
  | .error _ => []
  | .ok images => [⟨ocr_prompt complex_instruction, images⟩]

theorem pure_batches_abort (env : Env) (temp : Option (List String)) :
    ∀ (bs1 : List (List Nat)) (b : List Nat) (bs2 : List (List Nat)) (e : PyErr),
      (∀ x ∈ bs1, (pure_ocr env temp x complex_instruction).isOk) →
      pure_ocr env temp b complex_instruction = .error e →
      ∀ (i : Nat) (acc : String),
        pure_batches env temp (bs1 ++ b :: bs2) i acc = .error e ∧
        batch_calls env temp (bs1 ++ b :: bs2) =
          (bs1.map (batch_call env temp)).flatten ++ batch_call env temp b := by
  intro bs1
  induction bs1 with
  | nil =>
    intro b bs2 e _ herr i acc
    constructor
    · simp only [List.nil_append, pure_batches, herr]
    · rw [List.nil_append, batch_calls, batch_call]
      unfold pure_ocr at herr
      cases hdec : decode_batch env temp b with
      | error e' => simp
      | ok images =>
        rw [hdec] at herr
        simp only at herr
        simp [herr]
  | cons x xs ih =>
    intro b bs2 e hok herr i acc
    have hx : (pure_ocr env temp x complex_instruction).isOk :=
      hok x (List.mem_cons_self x xs)
    cases hpx : pure_ocr env temp x complex_instruction with
    | error e' => rw [hpx] at hx; simp [Except.isOk, Except.toBool] at hx
    | ok t =>
      have hxs : ∀ y ∈ xs, (pure_ocr env temp y complex_instruction).isOk :=
        fun y hy => hok y (List.mem_cons_of_mem x hy)
      have hrec := ih b bs2 e hxs herr
      constructor
      · rw [List.cons_append]
        simp only [pure_batches, hpx]
        exact (hrec (i + 1) (acc ++ batch_marker (i + 1) ++ t)).1
      · rw [List.cons_append, batch_calls]
        unfold pure_ocr at hpx
        cases hdec : decode_batch env temp x with
        | error e' => rw [hdec] at hpx; simp at hpx
        | ok images =>
          rw [hdec] at hpx
          simp only at hpx
          simp only [List.map_cons, List.flatten_cons, batch_call, hdec, hpx]
          rw [(hrec i acc).2]
          simp [List.append_assoc, batch_call]

/-- C3: if the OCR call for some batch of a document fails (content rejection
or service error), the Document Assembler processes no further batch of that
document — the call log gains exactly the calls of the batches up to and
including the failing one — the error propagates to the caller, and no output
file is written for that document (the driver does not report success for
it). -/
theorem ocr_failure_aborts_document (env : Env) (pdf_name : String) (w : World)
    (pages : List String) (bs1 : List (List Nat)) (b : List Nat)
    (bs2 : List (List Nat)) (e : PyErr)
    (hconv : env.convert_from_path ("pdf_docs/" ++ pdf_name) = .ok pages)
    (hsplit : batch_images (List.range pages.length) 25 = bs1 ++ b :: bs2)
    (hok : ∀ x ∈ bs1, (pure_ocr env (some pages) x complex_instruction).isOk)
    (herr : pure_ocr env (some pages) b complex_instruction = .error e) :
    (process_large_pdf env ("pdf_docs/" ++ pdf_name) w).1 = .error e ∧
    (process_large_pdf env ("pdf_docs/" ++ pdf_name) w).2.calls =
      w.calls ++ ((bs1.map (batch_call env (some pages))).flatten
        ++ batch_call env (some pages) b) ∧
    (process_one env pdf_name w).2.files = w.files ∧
    (process_one env pdf_name w).1 ≠ DocStatus.succeeded := by
  have habort := pure_batches_abort env (some pages) bs1 b bs2 e hok herr
  have hres : assemble_result env ("pdf_docs/" ++ pdf_name) = .error e := by
    unfold assemble_result
    rw [hconv]
    simp only
    rw [hsplit]
    exact (habort 0 "").1
  have hcalls : assemble_calls env ("pdf_docs/" ++ pdf_name) =
      (bs1.map (batch_call env (some pages))).flatten
        ++ batch_call env (some pages) b := by
    unfold assemble_calls
    rw [hconv]
    simp only
    rw [hsplit]
    exact (habort 0 "").2
  refine ⟨?_, ?_, ?_, ?_⟩
  · rw [process_large_pdf_eq]
    simp [hres]
  · rw [process_large_pdf_eq]
    simp [hcalls]
  · rw [process_one_eq]
    by_cases hex : output_exists w pdf_name
    · simp [hex]
    · simp only [hex, Bool.false_eq_true, reduceIte]
      simp [doc_output, doc_result, hres]
  · rw [process_one_eq]
    by_cases hex : output_exists w pdf_name
    · simp [hex]
    · simp only [hex, Bool.false_eq_true, reduceIte]
      simp only [doc_result, hres]
      cases e <;> simp [status_of]

/-- Environment for the C3 witness: a one-page PDF whose single batch is
rejected by the service (`response.text` raises `ValueError`). -/
def env_c3 : Env where
  convert_from_path := fun _ => .ok ["page-bytes"]
  decode := fun bytes => .ok bytes
  gen := fun _ images => if images.isEmpty then .ok "h" else .error .valueError
  listdir := ["doc.pdf"]

/-- Witness for C3: the single batch fails, the assembler propagates the
`ValueError`, exactly one remote call was made, and the driver writes no file
and reports no success. -/
theorem ocr_failure_aborts_document_witness :
    env_c3.convert_from_path "pdf_docs/doc.pdf" = .ok ["page-bytes"] ∧
    batch_images (List.range (["page-bytes"] : List String).length) 25 = [] ++ [0] :: [] ∧
    ((process_large_pdf env_c3 "pdf_docs/doc.pdf" w0).1 = .error .valueError ∧
     (process_large_pdf env_c3 "pdf_docs/doc.pdf" w0).2.calls =
       w0.calls ++ (([].map (batch_call env_c3 (some ["page-bytes"]))).flatten
         ++ batch_call env_c3 (some ["page-bytes"]) [0]) ∧
     (process_one env_c3 "doc.pdf" w0).2.files = w0.files ∧
     (process_one env_c3 "doc.pdf" w0).1 ≠ DocStatus.succeeded) :=
  ⟨by decide, by decide,
    ocr_failure_aborts_document env_c3 "doc.pdf" w0 ["page-bytes"] [] [0] [] .valueError
      (by decide) (by decide) (by decide) (by decide)⟩

/-! ## Claim C4: failure isolation across documents -/

theorem main_loop_fresh (env : Env) :
    ∀ (ds : List String) (w : World),
      (∀ d ∈ ds, output_exists w d = false) →
      (ds.map final_output_path).Nodup →
      main_loop env ds w =
        (ds.map (fun d => status_of (doc_result env d)),
         { temp := if ds.isEmpty then w.temp else none,
           files := w.files ++ (ds.map (doc_output env)).flatten,
           calls := w.calls ++ (ds.map (doc_calls env)).flatten }) := by
  intro ds
  induction ds with
  | nil =>
    intro w _ _
    simp [main_loop]
  | cons d rest ih =>
    intro w hfresh hnodup
    have hd : output_exists w d = false := hfresh d (List.mem_cons_self d rest)
    have hnd := hnodup
    rw [List.map_cons, List.nodup_cons] at hnd
    have hfresh' : ∀ d' ∈ rest, output_exists
        { temp := none, files := w.files ++ doc_output env d,
          calls := w.calls ++ doc_calls env d : World } d' = false := by
      intro d' hd'
      have h1 : output_exists w d' = false := hfresh d' (List.mem_cons_of_mem d hd')
      have hne : final_output_path d ≠ final_output_path d' := by
        intro heq
        exact hnd.1 (heq ▸ List.mem_map_of_mem final_output_path hd')
      unfold output_exists at h1 ⊢
      simp only [List.any_append, Bool.or_eq_false_iff]
      refine ⟨h1, ?_⟩
      unfold doc_output
      cases doc_result env d with
      | error e => simp
      | ok t => simp [hne]
    simp only [main_loop]
    rw [process_one_eq, if_neg (by simp [hd])]
    simp only
    rw [ih _ hfresh' hnd.2]
    simp [List.append_assoc, ite_self]

theorem doc_output_flatten_filter (env : Env) (M : String) (tOf : String → String)
    (e : PyErr) (hfail : doc_result env M = .error e) :
    ∀ (l : List String),
      (∀ d ∈ l, d ≠ M → doc_result env d = .ok (tOf d)) →
      (l.map (doc_output env)).flatten =
        (l.filter (fun d => d ≠ M)).map (fun d => (final_output_path d, tOf d)) := by
  intro l
  induction l with
  | nil =>
    intro _
    simp
  | cons d rest ih =>
    intro hok
    have hrest : ∀ d' ∈ rest, d' ≠ M → doc_result env d' = .ok (tOf d') :=
      fun d' hd' => hok d' (List.mem_cons_of_mem d hd')
    simp only [List.map_cons, List.flatten_cons, List.filter_cons]
    by_cases hdm : d = M
    · subst hdm
      rw [if_neg (by simp)]
      rw [ih hrest]
      simp [doc_output, hfail]
    · rw [if_pos (by simp [hdm])]
      rw [ih hrest]
      simp [doc_output, hok d (List.mem_cons_self d rest) hdm]

/-- C4: when one candidate document `M` fails — with content rejection, a
service error, or any unexpected error — and every other candidate succeeds,
the driver still completes the whole run: it reports a status for every
document (failure for `M`, success for the rest, in input order), writes an
output file for every document except `M`, and writes zero output files for
`M`; no single failure aborts the processing of the remaining documents. -/
theorem driver_failure_isolation (env : Env) (w : World) (M : String)
    (tOf : String → String) (e : PyErr)
    (hM : M ∈ pdf_files env)
    (hfail : doc_result env M = .error e)
    (hok : ∀ d ∈ pdf_files env, d ≠ M → doc_result env d = .ok (tOf d))
    (hnodup : ((pdf_files env).map final_output_path).Nodup)
    (hfresh : ∀ d ∈ pdf_files env, output_exists w d = false) :
    (Pipeline.main env w).1 =
      (pdf_files env).map
        (fun d => if d = M then status_of (.error e) else .succeeded) ∧
    (Pipeline.main env w).2.files =
      w.files ++ ((pdf_files env).filter (fun d => d ≠ M)).map
        (fun d => (final_output_path d, tOf d)) ∧
    (Pipeline.main env w).2.files.any
      (fun kv => kv.1 == final_output_path M) = false := by
  have hne : ¬ (pdf_files env).isEmpty := by
    cases hl : pdf_files env with
    | nil => rw [hl] at hM; simp at hM
    | cons a l => simp
  have hrun := main_loop_fresh env (pdf_files env) w hfresh hnodup
  have hmain : Pipeline.main env w = main_loop env (pdf_files env) w := by
    unfold Pipeline.main
    rw [if_neg hne]
  have hfiles : (Pipeline.main env w).2.files =
      w.files ++ ((pdf_files env).filter (fun d => d ≠ M)).map
        (fun d => (final_output_path d, tOf d)) := by
    rw [hmain, hrun]
    simp only
    rw [doc_output_flatten_filter env M tOf e hfail (pdf_files env) hok]
  refine ⟨?_, hfiles, ?_⟩
  · rw [hmain, hrun]
    simp only
    apply List.map_congr_left
    intro d hd
    by_cases hdm : d = M
    · subst hdm
      rw [hfail, if_pos rfl]
    · rw [hok d hd hdm, if_neg hdm]
      rfl
  · rw [hfiles, List.any_append]
    have h1 : w.files.any (fun kv => kv.1 == final_output_path M) = false :=
      hfresh M hM
    rw [h1]
    simp only [Bool.false_or]
    rw [List.any_eq_false]
    intro kv hkv
    rw [List.mem_map] at hkv
    obtain ⟨d, hdmem, hkveq⟩ := hkv
    subst hkveq
    have hdM : d ≠ M := by
      have := List.of_mem_filter hdmem
      simpa using this
    have hdpd : d ∈ pdf_files env := List.mem_of_mem_filter hdmem
    intro hcon
    simp only [beq_iff_eq] at hcon
    exact hdM (List.inj_on_of_nodup_map hnodup hdpd hM hcon)

/-- Environment for the C4 and C10 witnesses: two one-page documents, the
service accepting the page of `a.pdf` and rejecting the page of `b.pdf`. -/
def env_c4 : Env where
  convert_from_path := fun p =>
    if p = "pdf_docs/a.pdf" then .ok ["A"] else .ok ["B"]
  decode := fun bytes => .ok bytes
  gen := fun _ images =>
    if images = ["B"] then .error .valueError else .ok "T"
  listdir := ["a.pdf", "b.pdf"]

/-- Witness for C4: `b.pdf` fails with content rejection, `a.pdf` succeeds;
the run completes with a success and a failure status, exactly one output
file (for `a.pdf`), and none for `b.pdf`. -/
theorem driver_failure_isolation_witness :
    "b.pdf" ∈ pdf_files env_c4 ∧
    doc_result env_c4 "b.pdf" = .error .valueError ∧
    ((Pipeline.main env_c4 w0).1 =
      (pdf_files env_c4).map
        (fun d => if d = "b.pdf" then status_of (.error .valueError)
          else .succeeded) ∧
     (Pipeline.main env_c4 w0).2.files =
      w0.files ++ ((pdf_files env_c4).filter (fun d => d ≠ "b.pdf")).map
        (fun d => (final_output_path d, (fun _ => "T") d)) ∧
     (Pipeline.main env_c4 w0).2.files.any
      (fun kv => kv.1 == final_output_path "b.pdf") = false) :=
  ⟨by decide, by decide,
    driver_failure_isolation env_c4 w0 "b.pdf" (fun _ => "T") .valueError
      (by decide) (by decide) (by decide) (by decide) (by decide)⟩

/-! ## Claim C5: idempotent skip of completed documents -/

/-- C5: for a document whose output file already exists at the target path,
the driver iteration reports `Skipped` and leaves the world untouched: zero
remote calls are made for it (`calls` unchanged), no additional or duplicate
output file is written (`files` unchanged) — an already-completed document is
never reprocessed. -/
theorem driver_skips_existing (env : Env) (pdf_name : String) (w : World)
    (h : output_exists w pdf_name = true) :
    process_one env pdf_name w = (.skipped, w) := by
  rw [process_one_eq, if_pos h]

/-- Environment for the C5 and C7 witnesses. -/
def env_c5 : Env where
  convert_from_path := fun _ => .ok ["R"]
  decode := fun bytes => .ok bytes
  gen := fun _ _ => .ok "text"
  listdir := ["report.pdf"]

/-- A world in which the output of `report.pdf` already exists. -/
def w_c5 : World :=
  { temp := none, files := [("output/report.txt", "old text")], calls := [] }

/-- Witness for C5: with `output/report.txt` present, `report.pdf` is
skipped and the world — files and remote-call log — is unchanged. -/
theorem driver_skips_existing_witness :
    output_exists w_c5 "report.pdf" = true ∧
    process_one env_c5 "report.pdf" w_c5 = (.skipped, w_c5) :=
  ⟨by decide, driver_skips_existing env_c5 "report.pdf" w_c5 (by decide)⟩

/-! ## Claim C7: temporary images never outlive their document -/

/-- C7: no page image outlives its document's processing.  Whenever a
document is actually processed (its output does not already exist, so the
driver enters the `tempfile.TemporaryDirectory` block), the temporary image
directory is gone after the driver iteration on every exit path — success,
content rejection (`ValueError`) and service error alike — and on the success
path `process_large_pdf` has already deleted it before returning the raw
text. -/
theorem temp_images_cleanup (env : Env) (pdf_name : String) (w : World)
    (hproc : output_exists w pdf_name = false) :
    (process_one env pdf_name w).2.temp = none ∧
    (∀ raw w', process_large_pdf env ("pdf_docs/" ++ pdf_name)
        { w with temp := some [] } = (.ok raw, w') → w'.temp = none) := by
  constructor
  · rw [process_one_eq, if_neg (by simp [hproc])]
  · intro raw w' hrun
    rw [process_large_pdf_eq] at hrun
    have h1 := congrArg Prod.fst hrun
    have h2 := congrArg Prod.snd hrun
    simp only at h1 h2
    rw [← h2]
    simp only
    unfold assemble_result at h1
    unfold assemble_temp
    cases hconv : env.convert_from_path ("pdf_docs/" ++ pdf_name) with
    | error e =>
      rw [hconv] at h1
      simp at h1
    | ok pages =>
      rw [hconv] at h1
      simp only at h1 ⊢
      rw [h1]

/-- Witness for C7: a fresh document is processed, the final world has no
temporary directory, and the successful assembler run has already removed
it. -/
theorem temp_images_cleanup_witness :
    output_exists w0 "report.pdf" = false ∧
    ((process_one env_c5 "report.pdf" w0).2.temp = none ∧
     (∀ raw w', process_large_pdf env_c5 "pdf_docs/report.pdf"
        { w0 with temp := some [] } = (.ok raw, w') → w'.temp = none)) :=
  ⟨by decide, temp_images_cleanup env_c5 "report.pdf" w0 (by decide)⟩

/-! ## Claim C10: harmonization on every success path -/

/-- C10: harmonization is unconditionally applied on the success path.  When
a processed document's assembly returns raw text and the harmonization call
succeeds, the driver reports success and writes exactly one file whose
content is the `.ok` value of `harmonize_document` applied to the assembled
raw text; any entry at the target path that is not preexisting holds that
harmonized text, so the raw marker-bearing text is never written as the final
output (unless it happens to equal the harmonized text). -/
theorem harmonization_always_applied (env : Env) (pdf_name : String) (w : World)
    (raw hz : String)
    (hskip : output_exists w pdf_name = false)
    (hraw : assemble_result env ("pdf_docs/" ++ pdf_name) = .ok raw)
    (hh : harmonize_result env = .ok hz) :
    (process_one env pdf_name w).1 = .succeeded ∧
    (process_one env pdf_name w).2.files =
      w.files ++ [(final_output_path pdf_name, hz)] ∧
    (harmonize_document env raw { w with temp := some [] }).1 = .ok hz ∧
    (∀ c, (final_output_path pdf_name, c) ∈ (process_one env pdf_name w).2.files →
      (final_output_path pdf_name, c) ∈ w.files ∨ c = hz) := by
  have hdoc : doc_result env pdf_name = .ok hz := by
    unfold doc_result
    rw [hraw]
    exact hh
  have hfiles : (process_one env pdf_name w).2.files =
      w.files ++ [(final_output_path pdf_name, hz)] := by
    rw [process_one_eq, if_neg (by simp [hskip])]
    simp [doc_output, hdoc]
  refine ⟨?_, hfiles, ?_, ?_⟩
  · rw [process_one_eq, if_neg (by simp [hskip])]
    simp [hdoc, status_of]
  · unfold harmonize_document
    exact hh
  · intro c hc
    rw [hfiles] at hc
    rcases List.mem_append.mp hc with hc | hc
    · exact Or.inl hc
    · right
      simp only [List.mem_singleton, Prod.mk.injEq] at hc
      exact hc.2

/-- Witness for C10: for the succeeding document `a.pdf` of `env_c4`, the
driver writes the harmonized text "T". -/
theorem harmonization_always_applied_witness :
    output_exists w0 "a.pdf" = false ∧
    assemble_result env_c4 "pdf_docs/a.pdf" = .ok (spec_assembled_text ["T"]) ∧
    harmonize_result env_c4 = .ok "T" ∧
    ((process_one env_c4 "a.pdf" w0).1 = .succeeded ∧
     (process_one env_c4 "a.pdf" w0).2.files =
       w0.files ++ [(final_output_path "a.pdf", "T")] ∧
     (harmonize_document env_c4 (spec_assembled_text ["T"])
        { w0 with temp := some [] }).1 = .ok "T" ∧
     (∀ c, (final_output_path "a.pdf", c) ∈ (process_one env_c4 "a.pdf" w0).2.files →
       (final_output_path "a.pdf", c) ∈ w0.files ∨ c = "T")) :=
  ⟨by decide, by decide, by decide,
    harmonization_always_applied env_c4 "a.pdf" w0 (spec_assembled_text ["T"]) "T"
      (by decide) (by decide) (by decide)⟩

/-! ## Claim C6: undecodable images (corrected)

The claim says an invalid image in a batch is skipped with a warning while the
rest of the batch proceeds, and that a batch whose images all fail to decode
yields empty text.  The source has no such path: the list comprehension
`[Image.open(path) for path in image_paths]` propagates the first decode
exception, aborting the whole batch before any service call. -/

/-- Environment for the C6 counterexample: the directory holds one good and
one undecodable image (path 0 decodes, path 1 raises in `Image.open`). -/
def env_c6 : Env where
  convert_from_path := fun _ => .ok ["GOOD", "BAD"]
  decode := fun bytes => if bytes = "BAD" then .error .otherError else .ok bytes
  gen := fun _ _ => .ok "text"
  listdir := []

/-- A world whose temporary directory holds the two images of `env_c6`. -/
def w_c6 : World :=
  { temp := some ["GOOD", "BAD"], files := [], calls := [] }

/-- C6 is false of the code.  With a batch of two images of which the first
decodes and the second does not, `ocr_with_gemini` does not skip the bad
image and transcribe the remaining valid one (as the claim requires): it
aborts the whole batch with the decode error and performs no service call;
and with a batch whose only image is undecodable it also propagates the
error instead of returning empty text. -/
theorem ocr_skip_invalid_counterexample :
    (ocr_with_gemini env_c6 [0, 1] complex_instruction w_c6).1
      = .error .otherError ∧
    (ocr_with_gemini env_c6 [0, 1] complex_instruction w_c6).2.calls = [] ∧
    (ocr_with_gemini env_c6 [1] complex_instruction w_c6).1
      = .error .otherError := by
  decide

/-- C6 (amended): an invalid or undecodable image aborts the whole batch
before any service call: when decoding the batch raises — however many valid
images remain, and in particular also when every image is invalid —
`ocr_with_gemini` propagates the decode error, leaves the world unchanged
(no remote call) and never returns empty text in place of the error. -/
theorem ocr_invalid_image_aborts (env : Env) (image_paths : List Nat)
    (instruction : String) (w : World) (e : PyErr)
    (hdec : decode_batch env w.temp image_paths = .error e) :
    ocr_with_gemini env image_paths instruction w = (.error e, w) := by
  unfold ocr_with_gemini
  rw [hdec]

/-- Witness for the amended C6 at the counterexample input. -/
theorem ocr_invalid_image_aborts_witness :
    decode_batch env_c6 w_c6.temp [0, 1] = .error .otherError ∧
    ocr_with_gemini env_c6 [0, 1] complex_instruction w_c6
      = (.error .otherError, w_c6) :=
  ⟨by decide, ocr_invalid_image_aborts env_c6 [0, 1] complex_instruction w_c6
    .otherError (by decide)⟩

/-! ## Claim C9: atomicity of the final write (corrected)

`with open(final_output_path, 'w', encoding='utf-8') as f: f.write(harmonized_text)`
(src/main.py lines 54-55) opens the target with mode `w` — creating the
file, or truncating an existing one, to empty — and only then writes the
text.  There is no temp-file-and-rename pattern in the source. -/

/-- The successive on-disk contents of the target path during the final
write of `main` when no file existed there before (the only situation in
which `main` reaches the write): absent, then the empty file left by
`open(..., 'w')`, then the complete text after `f.write`. -/
def write_file_states (text : String) : List (Option String) :=
  [none, some "", some text]

/-- The atomicity property C9 claims of the final write: at every moment
during the write, the target path either holds the complete final text or no
file exists there at all. -/
def atomic_write (states : List (Option String)) (text : String) : Prop :=
  ∀ s ∈ states, s = none ∨ s = some text

/-- C9 is false of the code: the final write is not atomic.  Concretely, for
final text `"T"` the state after `open(..., 'w')` is an existing empty file
at the target path — neither absence nor the complete text. -/
theorem write_not_atomic_counterexample :
    ¬ atomic_write (write_file_states "T") "T" := by
  intro hatom
  rcases hatom (some "") (by simp [write_file_states]) with hc | hc
  · exact Option.noConfusion hc
  · rw [Option.some.injEq] at hc
    exact absurd hc (by decide)

/-- C9 (amended): the final write is create-then-fill, not atomic.  Upon
completion the target path holds exactly the final text (the last state of
the write), but for nonempty final text there is an intermediate on-disk
state — the empty file left by `open(..., 'w')` — that is neither absence
nor the complete text, so a failure in the middle of the write can leave a
partial artifact at the target path. -/
theorem write_file_not_atomic (text : String) (h : text ≠ "") :
    (write_file_states text).getLast? = some (some text) ∧
    some "" ∈ write_file_states text ∧
    ¬ atomic_write (write_file_states text) text := by
  refine ⟨rfl, by simp [write_file_states], ?_⟩
  intro hatom
  rcases hatom (some "") (by simp [write_file_states]) with hc | hc
  · exact Option.noConfusion hc
  · rw [Option.some.injEq] at hc
    exact h hc.symm

/-- Witness for the amended C9 at the concrete text `"T"`. -/
theorem write_file_not_atomic_witness :
    "T" ≠ "" ∧
    ((write_file_states "T").getLast? = some (some "T") ∧
     some "" ∈ write_file_states "T" ∧
     ¬ atomic_write (write_file_states "T") "T") :=
  ⟨by decide, write_file_not_atomic "T" (by decide)⟩
